import Mathlib

/-
Verification of the midas-pro-mcp-server endpoint catalog and OSC client
(src/endpoints.ts and the OSC client module).

The embedding models:
  - the endpoint catalog (`EndpointStore`) as an association list mirroring the
    JSON object of groups, each mapping endpoint names to `EndpointSpec`;
  - `getEndpointInfo`, `buildOscPath`, `searchEndpoints` as pure functions on
    the store;
  - the `MidasOscClient` class as an explicit state record with pure
    transition functions (`connect`, `disconnect`, `receiveMessage`) and
    effectful operations returning `Except` (`getValue`, `setValue`);
  - JavaScript numbers as rationals, machine time as integers, and the
    polling loop of `getValue` as a function over an explicit schedule of
    poll instants and listener arrivals.
-/

namespace Midas

-- ── Catalog data model (endpoints.ts) ───────────────────────────────────────

/-- The six OSC message types of the `OscMessageType` union in endpoints.ts. -/
inductive OscMessageType where
  | enPPCFaderMessage
  | enPPCRotaryMessage
  | enPPCSwitchMessage
  | enPPCStringMessage
  | enPPCMeterMessage
  | enPPCOtherMessage
deriving DecidableEq

/-- The string literal each `OscMessageType` member stands for in TypeScript. -/
def OscMessageType.name : OscMessageType → String
  | .enPPCFaderMessage => "enPPCFaderMessage"
  | .enPPCRotaryMessage => "enPPCRotaryMessage"
  | .enPPCSwitchMessage => "enPPCSwitchMessage"
  | .enPPCStringMessage => "enPPCStringMessage"
  | .enPPCMeterMessage => "enPPCMeterMessage"
  | .enPPCOtherMessage => "enPPCOtherMessage"

/-- The non-null alternatives of `argumentType` in `EndpointSpec`
(`"float" | "integer" | "string"`); the TypeScript `null` is `Option.none`. -/
inductive ArgumentType where
  | float
  | integer
  | string
deriving DecidableEq

/-- `EndpointSpec` from endpoints.ts. -/
structure EndpointSpec where
  multiPath : Bool
  type : OscMessageType
  argumentType : Option ArgumentType
  description : String
  isAbsolute : Option Bool
deriving DecidableEq

/-- `EndpointStore = Record<string, Record<string, EndpointSpec>>`, as an
association list in object-iteration order. -/
abbrev EndpointStore := List (String × List (String × EndpointSpec))

/-- `getEndpointInfo(group, endpoint)`: `all[group]?.[endpoint] ?? null`.
The store is passed explicitly (the TypeScript module holds it lazily). -/
def getEndpointInfo (all : EndpointStore) (group endpoint : String) :
    Option EndpointSpec :=
  match all.lookup group with
  | none => none
  | some groupData => groupData.lookup endpoint

/-- `buildOscPath(group, endpoint, index?)` from endpoints.ts: the string
`/{spec.type}/{group}/{endpoint}`, with `/{index}` appended when
`spec.multiPath && index !== undefined`. -/
def buildOscPath (all : EndpointStore) (group endpoint : String)
    (index : Option Int) : Option String :=
  match getEndpointInfo all group endpoint with
  | none => none
  | some spec =>
    let path := "/" ++ spec.type.name ++ "/" ++ group ++ "/" ++ endpoint
    if spec.multiPath then
      match index with
      | some i => some (path ++ "/" ++ toString i)
      | none => some path
    else
      some path

-- ── Search (endpoints.ts searchEndpoints) ────────────────────────────────────

/-- `leadsWith needle hay`: `hay` starts with `needle`. -/
def leadsWith : List Char → List Char → Bool
  | [], _ => true
  | _ :: _, [] => false
  | a :: as, b :: bs => a == b && leadsWith as bs

/-- `occursIn needle hay`: JavaScript `hay.includes(needle)` (plain substring
containment). -/
def occursIn : List Char → List Char → Bool
  | needle, [] => leadsWith needle []
  | needle, c :: rest => leadsWith needle (c :: rest) || occursIn needle rest

/-- Worker for `splitWs`; `cur` holds the reversed current token and the flag
records whether the scan is inside a whitespace run (whose first character
already emitted the pending token). -/
def splitWsAux : Bool → List Char → List Char → List (List Char)
  | _, cur, [] => [cur.reverse]
  | inWs, cur, c :: rest =>
    if c.isWhitespace then
      if inWs then splitWsAux true cur rest
      else cur.reverse :: splitWsAux true [] rest
    else
      splitWsAux false (c :: cur) rest

/-- JavaScript `s.split(/\s+/)`: cut at every maximal run of whitespace,
keeping the empty pieces that appear at the ends (so `"".split` is `[""]`
and a leading or trailing run yields an empty piece). -/
def splitWs (l : List Char) : List (List Char) :=
  splitWsAux false [] l

/-- The search terms: `query.toLowerCase().split(/\s+/)`. -/
def termsOf (query : String) : List (List Char) :=
  splitWs (query.data.map Char.toLower)

/-- The searchable string of one catalog entry:
`[groupName, endpointName, spec.description, spec.type].join(" ").toLowerCase()`. -/
def searchableOf (groupName endpointName : String) (spec : EndpointSpec) :
    List Char :=
  (groupName.data ++ ' ' :: endpointName.data ++ ' ' :: spec.description.data
    ++ ' ' :: spec.type.name.data).map Char.toLower

/-- `terms.every((term) => searchable.includes(term))`. -/
def matchesTerms (terms : List (List Char)) (searchable : List Char) : Bool :=
  terms.all fun term => occursIn term searchable

/-- The group filter guard `options?.group && groupName !== options.group`
(note the JavaScript truthiness: an empty-string filter is falsy, hence
ignored). `true` means the group is skipped. -/
def groupFilterSkips (oGroup : Option String) (groupName : String) : Bool :=
  match oGroup with
  | none => false
  | some g => g != "" && groupName != g

/-- The type filter guard `options?.type && spec.type !== options.type`
(every `OscMessageType` string literal is truthy). `true` means skipped. -/
def typeFilterSkips (oType : Option OscMessageType) (t : OscMessageType) :
    Bool :=
  match oType with
  | none => false
  | some ty => t != ty

/-- One `SearchResult` as pushed by the search loop. -/
structure SearchResult where
  group : String
  endpoint : String
  spec : EndpointSpec
  oscPath : String
deriving DecidableEq

/-- The record pushed onto `results` for a matching entry. -/
def mkSearchResult (groupName endpointName : String) (spec : EndpointSpec) :
    SearchResult :=
  ⟨groupName, endpointName, spec,
    "/" ++ spec.type.name ++ "/" ++ groupName ++ "/" ++ endpointName⟩

/-- The inner loop of `searchEndpoints` over one group. -/
def searchGroupFold (terms : List (List Char)) (oType : Option OscMessageType)
    (groupName : String) (results : List SearchResult)
    (endpoints : List (String × EndpointSpec)) : List SearchResult :=
  endpoints.foldl
    (fun acc p =>
      if typeFilterSkips oType p.2.type then acc
      else if matchesTerms terms (searchableOf groupName p.1 p.2) then
        acc ++ [mkSearchResult groupName p.1 p.2]
      else acc)
    results

/-- `searchEndpoints(query, options?)` from endpoints.ts: the nested loops
over groups and endpoints, with the group and type filter guards and the
all-terms substring test. -/
def searchEndpoints (all : EndpointStore) (query : String)
    (oGroup : Option String) (oType : Option OscMessageType) :
    List SearchResult :=
  let terms := termsOf query
  all.foldl
    (fun acc g =>
      if groupFilterSkips oGroup g.1 then acc
      else searchGroupFold terms oType g.1 acc g.2)
    []

/-- All `(group, endpoint, spec)` triples of the store, in iteration order. -/
def catalogTriples (all : EndpointStore) :
    List (String × String × EndpointSpec) :=
  all.flatMap fun g => g.2.map fun p => (g.1, p.1, p.2)

/-- Spec-side exact-match group filter: pass iff no filter is supplied or the
group name equals the filter. -/
def groupPasses : Option String → String → Bool
  | none, _ => true
  | some g, groupName => groupName == g

/-- Spec-side exact-match type filter. -/
def typePasses : Option OscMessageType → OscMessageType → Bool
  | none, _ => true
  | some ty, t => t == ty

/-- Declarative search as the (amended) specification describes it: filter the
catalog triples by the exact-match filters and the requirement that every
query term occur in the lowercased, space-joined field string. -/
def searchSpecJoined (all : EndpointStore) (query : String)
    (oGroup : Option String) (oType : Option OscMessageType) :
    List SearchResult :=
  ((catalogTriples all).filter fun t =>
      groupPasses oGroup t.1 &&
        (typePasses oType t.2.2.type &&
          matchesTerms (termsOf query) (searchableOf t.1 t.2.1 t.2.2))).map
    fun t => mkSearchResult t.1 t.2.1 t.2.2

/-- The plain (separator-free) concatenation of the four fields, lowercased —
this follows the words of the original claim, which says concatenation of
group name, endpoint name, description, and message type. -/
def concatOf (groupName endpointName : String) (spec : EndpointSpec) :
    List Char :=
  (groupName.data ++ endpointName.data ++ spec.description.data
    ++ spec.type.name.data).map Char.toLower

/-- Declarative search exactly as the original claim words it: every term a
substring of the plain lowercased concatenation of the four fields. -/
def searchSpecClaimed (all : EndpointStore) (query : String)
    (oGroup : Option String) (oType : Option OscMessageType) :
    List SearchResult :=
  ((catalogTriples all).filter fun t =>
      groupPasses oGroup t.1 &&
        (typePasses oType t.2.2.type &&
          (termsOf query).all
            fun term => occursIn term (concatOf t.1 t.2.1 t.2.2))).map
    fun t => mkSearchResult t.1 t.2.1 t.2.2

-- ── OSC client data model (osc-client module) ───────────────────────────────

/-- `ConnectionConfig` from the OSC client module. -/
structure ConnectionConfig where
  ip : String
  port : Int
  listenPort : Int
deriving DecidableEq

/-- An OSC argument as encoded by `msg.append` (`f` float, `i` integer,
`s` string); floats are modelled as rationals. -/
inductive OscArg where
  | f (value : ℚ)
  | i (value : ℤ)
  | s (value : String)
deriving DecidableEq

/-- An OSC message: address plus argument list. -/
structure OscMessage where
  address : String
  args : List OscArg
deriving DecidableEq

/-- `OscResponse` from the OSC client module. -/
structure OscResponse where
  address : String
  args : List OscArg
  timestamp : Int
deriving DecidableEq

/-- The `responseBuffer : Map<string, OscResponse>` as an association list in
insertion order. -/
abbrev ResponseBuffer := List (String × OscResponse)

/-- `Map.set`: overwrite the entry with this key in place, else append. -/
def bufferSet (buf : ResponseBuffer) (key : String) (r : OscResponse) :
    ResponseBuffer :=
  match buf with
  | [] => [(key, r)]
  | (k, v) :: rest =>
    if k == key then (k, r) :: rest else (k, v) :: bufferSet rest key r

/-- `Map.delete`: remove the entry with this key. -/
def bufferDelete (buf : ResponseBuffer) (key : String) : ResponseBuffer :=
  buf.filter fun p => p.1 != key

/-- The mutable fields of `MidasOscClient`: `client`, `listener`, `config`,
`responseBuffer`. The network handles are modelled by the data they were
opened with: `client` by `(ip, port)`, `listener` by its listen port. -/
structure ClientState where
  client : Option (String × Int)
  listener : Option Int
  config : Option ConnectionConfig
  responseBuffer : ResponseBuffer
deriving DecidableEq

/-- The field initializers of `MidasOscClient`: everything null / empty. -/
def initialState : ClientState :=
  ⟨none, none, none, []⟩

/-- `get isConnected(): this.client !== null`. -/
def isConnected (s : ClientState) : Bool :=
  s.client.isSome

/-- `get connectionInfo(): this.config`. -/
def connectionInfo (s : ClientState) : Option ConnectionConfig :=
  s.config

/-- `DANGEROUS_ENDPOINTS`: the fixed two-element deny set. -/
def DANGEROUS_ENDPOINTS : List String :=
  ["enRebootConsole", "enResetGlobalsToDefault"]

/-- `isDangerous(endpoint)`: membership in `DANGEROUS_ENDPOINTS`; a pure
function of the name alone (the method reads no instance state). -/
def isDangerous (endpoint : String) : Bool :=
  DANGEROUS_ENDPOINTS.contains endpoint

/-- `disconnect()`: close and null the client if present, close and null the
listener if present, clear the config and the response buffer. -/
def disconnect (s : ClientState) : ClientState :=
  let s1 := if s.client.isSome then { s with client := none } else s
  let s2 := if s1.listener.isSome then { s1 with listener := none } else s1
  { s2 with config := none, responseBuffer := [] }

/-- `connect(ip, port, listenPort)`: tear down any prior session
(`if (this.client) await this.disconnect()`), then store the new config,
open the send client and the listener. -/
def connect (s : ClientState) (ip : String) (port listenPort : Int) :
    ClientState :=
  let s1 := if s.client.isSome then disconnect s else s
  { s1 with
    config := some ⟨ip, port, listenPort⟩,
    client := some (ip, port),
    listener := some listenPort }

/-- The listener callback: on a received message, overwrite that address in
the response buffer with the arguments and a fresh timestamp. It only runs
while the listener is open. -/
def receiveMessage (s : ClientState) (address : String) (args : List OscArg)
    (now : Int) : ClientState :=
  if s.listener.isSome then
    { s with responseBuffer := bufferSet s.responseBuffer address ⟨address, args, now⟩ }
  else s

/-- An inbound message event, for describing listener traffic. -/
structure InboundMessage where
  address : String
  args : List OscArg
  now : Int

-- ── getValue ────────────────────────────────────────────────────────────────

/-- One iteration of the 50ms polling loop of `getValue`: the clock value at
the check, and the messages the listener wrote to the buffer since the
previous check. -/
structure PollTick where
  now : Int
  arrivals : List OscResponse

/-- Apply listener arrivals to the buffer (each overwrites its address). -/
def applyArrivals (buf : ResponseBuffer) (rs : List OscResponse) :
    ResponseBuffer :=
  rs.foldl (fun b r => bufferSet b r.address r) buf

/-- The `while (Date.now() < deadline)` polling loop of `getValue`: at each
tick, if the deadline has not passed, look up the path and return the
response if its timestamp is newer than `now - timeoutMs`, otherwise keep
polling; exhausting the schedule or reaching the deadline yields `none`. -/
def pollLoop (path : String) (timeoutMs deadline : Int) :
    ResponseBuffer → List PollTick → Option OscResponse
  | _, [] => none
  | buf, tick :: rest =>
    if tick.now < deadline then
      let buf2 := applyArrivals buf tick.arrivals
      match buf2.lookup path with
      | some r =>
        if r.timestamp > tick.now - timeoutMs then some r
        else pollLoop path timeoutMs deadline buf2 rest
      | none => pollLoop path timeoutMs deadline buf2 rest
    else none

/-- The failures `getValue` can throw. -/
inductive GetError where
  | notConnected
  | invalidEndpoint
deriving DecidableEq

/-- The observable outcome of a successful `getValue` call: the query message
that was sent, and the response (or `none` on timeout). -/
structure GetOutcome where
  query : OscMessage
  result : Option OscResponse
deriving DecidableEq

/-- `getValue(group, endpoint, index?, timeoutMs)`: throw when not connected,
throw when the path cannot be built, delete any stale buffered response for
the path, send the bare-address query, then poll until the deadline. The
clock at the send (`now0`) and the poll schedule are explicit parameters. -/
def getValue (all : EndpointStore) (st : ClientState) (group endpoint : String)
    (index : Option Int) (timeoutMs now0 : Int) (ticks : List PollTick) :
    Except GetError GetOutcome :=
  if st.client.isNone then .error .notConnected
  else
    match buildOscPath all group endpoint index with
    | none => .error .invalidEndpoint
    | some path =>
      let buf := bufferDelete st.responseBuffer path
      .ok ⟨⟨path, []⟩, pollLoop path timeoutMs (now0 + timeoutMs) buf ticks⟩

-- ── setValue ────────────────────────────────────────────────────────────────

/-- A JavaScript `number | string` argument value. -/
inductive JsValue where
  | num (q : ℚ)
  | str (s : String)
deriving DecidableEq

/-- JavaScript `String(value)` on a `number | string`. -/
def jsString : JsValue → String
  | .str s => s
  | .num q => toString q

/-- JavaScript `Math.round`: floor of the value plus one half. -/
def jsRound (q : ℚ) : ℤ :=
  ⌊q + 1 / 2⌋

/-- The failures `setValue` can throw, in source order. -/
inductive SetError where
  | notConnected
  | invalidEndpoint
  | readOnly
  | pathFailure
  | typeMismatch
deriving DecidableEq

/-- `setValue(group, endpoint, value, index?)`: connection check, catalog
lookup, read-only check, path build, then the `argumentType` switch — float
values are clamped (fader messages to `[0.0000001, 0.9999999]`, others to
`[0, 1]`), integer values rounded, string values coerced. On success the
built message is the result. -/
def setValue (all : EndpointStore) (st : ClientState) (group endpoint : String)
    (value : JsValue) (index : Option Int) : Except SetError OscMessage :=
  if st.client.isNone then .error .notConnected
  else
    match getEndpointInfo all group endpoint with
    | none => .error .invalidEndpoint
    | some spec =>
      match spec.argumentType with
      | none => .error .readOnly
      | some aty =>
        match buildOscPath all group endpoint index with
        | none => .error .pathFailure
        | some path =>
          match aty with
          | .float =>
            match value with
            | .str _ => .error .typeMismatch
            | .num v =>
              let v :=
                if spec.type == .enPPCFaderMessage then
                  max (0.0000001 : ℚ) (min (0.9999999 : ℚ) v)
                else
                  max (0 : ℚ) (min (1 : ℚ) v)
              .ok ⟨path, [.f v]⟩
          | .integer =>
            match value with
            | .str _ => .error .typeMismatch
            | .num v => .ok ⟨path, [.i (jsRound v)]⟩
          | .string => .ok ⟨path, [.s (jsString value)]⟩

-- ── Reachable client states ─────────────────────────────────────────────────

/-- The operations that can touch a `MidasOscClient` instance, for stating
invariants over every reachable state. `getValueA` carries the store and
call arguments because `getValue` deletes the built path from the buffer;
`setValueA` sends but never mutates the fields. -/
inductive ClientAction where
  | connectA (ip : String) (port listenPort : Int)
  | disconnectA
  | receiveA (address : String) (args : List OscArg) (now : Int)
  | getValueA (all : EndpointStore) (group endpoint : String)
      (index : Option Int)
  | setValueA

/-- The effect of each operation on the client fields. -/
def stepClient (s : ClientState) : ClientAction → ClientState
  | .connectA ip port listenPort => connect s ip port listenPort
  | .disconnectA => disconnect s
  | .receiveA address args now => receiveMessage s address args now
  | .getValueA all group endpoint index =>
    if s.client.isSome then
      match buildOscPath all group endpoint index with
      | some path => { s with responseBuffer := bufferDelete s.responseBuffer path }
      | none => s
    else s
  | .setValueA => s

-- ── Concrete sample data (for counterexamples and witnesses) ────────────────

/-- A non-multiPath float endpoint of the catch-all message type with an empty
description. -/
def exOtherSpec : EndpointSpec :=
  ⟨false, .enPPCOtherMessage, some .float, "", none⟩

/-- A one-group, one-endpoint store: group `foo`, endpoint `bar`. -/
def exStore : EndpointStore :=
  [("foo", [("bar", exOtherSpec)])]

/-- A fader endpoint taking a float. -/
def exFaderSpec : EndpointSpec :=
  ⟨false, .enPPCFaderMessage, some .float, "main fader level", none⟩

/-- A switch endpoint taking an integer. -/
def exSwitchSpec : EndpointSpec :=
  ⟨false, .enPPCSwitchMessage, some .integer, "mute switch", none⟩

/-- A string-valued endpoint. -/
def exStringSpec : EndpointSpec :=
  ⟨false, .enPPCStringMessage, some .string, "channel label", none⟩

/-- A read-only meter endpoint (`argumentType` null). -/
def exMeterSpec : EndpointSpec :=
  ⟨false, .enPPCMeterMessage, none, "input meter", none⟩

/-- A multiPath (indexed) fader endpoint. -/
def exMultiSpec : EndpointSpec :=
  ⟨true, .enPPCFaderMessage, some .float, "aux send", none⟩

/-- A small store exercising every argument type, an indexed endpoint, and a
dangerous endpoint name. -/
def wStore : EndpointStore :=
  [("grp",
    [("fd", exFaderSpec), ("sw", exSwitchSpec), ("lbl", exStringSpec),
     ("mtr", exMeterSpec), ("aux", exMultiSpec),
     ("enRebootConsole", exSwitchSpec)])]

/-- A response left in the buffer by an earlier query (old timestamp). -/
def staleResp : OscResponse :=
  ⟨"/enPPCFaderMessage/grp/fd", [.f 0], -5000⟩

/-- A connected client whose buffer still holds `staleResp`. -/
def connSt : ClientState :=
  ⟨some ("10.0.0.1", 10023), some 10024, some ⟨"10.0.0.1", 10023, 10024⟩,
    [("/enPPCFaderMessage/grp/fd", staleResp)]⟩

/-- A fresh response arriving during the poll loop. -/
def wResp : OscResponse :=
  ⟨"/enPPCFaderMessage/grp/fd", [.f 1], 1005⟩

-- ── Helper lemmas ───────────────────────────────────────────────────────────

theorem disconnect_eq (s : ClientState) : disconnect s = ⟨none, none, none, []⟩ := by
  obtain ⟨c, l, cfg, buf⟩ := s
  cases c <;> cases l <;> simp [disconnect]

theorem receiveMessage_client (s : ClientState) (a : String) (r : List OscArg)
    (t : Int) : (receiveMessage s a r t).client = s.client := by
  unfold receiveMessage
  split <;> rfl

theorem foldlReceive_client (msgs : List InboundMessage) (s : ClientState) :
    (msgs.foldl
        (fun st m => receiveMessage st m.address m.args m.now) s).client
      = s.client := by
  induction msgs generalizing s with
  | nil => rfl
  | cons m rest ih => rw [List.foldl_cons, ih, receiveMessage_client]

theorem connect_client (s : ClientState) (ip : String) (port lp : Int) :
    (connect s ip port lp).client = some (ip, port) := by
  unfold connect
  split <;> rfl

theorem connect_listener (s : ClientState) (ip : String) (port lp : Int) :
    (connect s ip port lp).listener = some lp := by
  unfold connect
  split <;> rfl

theorem connect_config (s : ClientState) (ip : String) (port lp : Int) :
    (connect s ip port lp).config = some ⟨ip, port, lp⟩ := by
  unfold connect
  split <;> rfl

-- ── Claim theorems ──────────────────────────────────────────────────────────

/-- Claim C9: `isDangerous` returns true precisely on the two fixed names
`enRebootConsole` and `enResetGlobalsToDefault`; it is a pure function of the
name alone, so the result is independent of any connection state. -/
theorem isDangerous_iff (name : String) :
    isDangerous name = true ↔
      name = "enRebootConsole" ∨ name = "enResetGlobalsToDefault" := by
  simp [isDangerous, DANGEROUS_ENDPOINTS]

/-- Claim C7: after `disconnect()` the client is fully disconnected — send
client, listener and config are all cleared and the response buffer is empty —
and a second `disconnect()` changes nothing (a no-op that still returns a
state, i.e. no error). -/
theorem disconnect_clears_all (s : ClientState) :
    disconnect s = ⟨none, none, none, []⟩ ∧
    disconnect (disconnect s) = disconnect s := by
  refine ⟨disconnect_eq s, ?_⟩
  rw [disconnect_eq s, disconnect_eq ⟨none, none, none, []⟩]

/-- Claim C6: two `connect` calls in a row — with any amount of inbound
listener traffic in between — leave exactly one active session, carrying the
second call's configuration, and the response buffer accumulated during the
first session is cleared. -/
theorem connect_twice_single_session (s : ClientState)
    (ip1 : String) (p1 l1 : Int) (msgs : List InboundMessage)
    (ip2 : String) (p2 l2 : Int) :
    connect
        (msgs.foldl (fun st m => receiveMessage st m.address m.args m.now)
          (connect s ip1 p1 l1))
        ip2 p2 l2
      = ⟨some (ip2, p2), some l2, some ⟨ip2, p2, l2⟩, []⟩ := by
  generalize hX :
    msgs.foldl (fun st m => receiveMessage st m.address m.args m.now)
      (connect s ip1 p1 l1) = X
  have hc : X.client = some (ip1, p1) := by
    rw [← hX, foldlReceive_client, connect_client]
  unfold connect
  rw [hc]
  simp [disconnect_eq]

/-- Claim C2: `buildOscPath` yields `none` when the endpoint is absent;
otherwise it yields `/{type}/{group}/{endpoint}`, extended by `/{index}`
exactly when the spec is multiPath and an index was supplied — in particular a
non-multiPath endpoint never gets an index segment even when an index is
passed. -/
theorem buildOscPath_shape (all : EndpointStore) (g e : String)
    (idx : Option Int) :
    (getEndpointInfo all g e = none → buildOscPath all g e idx = none) ∧
    (∀ spec, getEndpointInfo all g e = some spec →
      buildOscPath all g e idx =
          some (("/" ++ spec.type.name ++ "/" ++ g ++ "/" ++ e) ++
            match idx with
            | some i => if spec.multiPath then "/" ++ toString i else ""
            | none => "") ∧
      (spec.multiPath = false →
        buildOscPath all g e idx =
          some ("/" ++ spec.type.name ++ "/" ++ g ++ "/" ++ e))) := by
  constructor
  · intro h
    simp [buildOscPath, h]
  · intro spec h
    constructor
    · cases idx with
      | none => cases hm : spec.multiPath <;> simp [buildOscPath, h, hm]
      | some i =>
        cases hm : spec.multiPath <;>
          simp [buildOscPath, h, hm, String.append_assoc]
    · intro hm
      cases idx <;> simp [buildOscPath, h, hm]

/-- Witness for C2 on the sample store: a missing endpoint, an indexed
multiPath endpoint, and a non-multiPath endpoint given an index anyway. -/
theorem buildOscPath_shape_witness :
    buildOscPath wStore "nope" "x" (some 3) = none ∧
    buildOscPath wStore "grp" "aux" (some 3)
      = some "/enPPCFaderMessage/grp/aux/3" ∧
    buildOscPath wStore "grp" "fd" (some 3)
      = some "/enPPCFaderMessage/grp/fd" := by
  refine ⟨(buildOscPath_shape wStore "nope" "x" (some 3)).1 (by decide), ?_, ?_⟩
  · exact (((buildOscPath_shape wStore "grp" "aux" (some 3)).2 exMultiSpec
      (by decide)).1).trans (by decide)
  · exact ((buildOscPath_shape wStore "grp" "fd" (some 3)).2 exFaderSpec
      (by decide)).2 (by decide)

/-- Claim C10: over every sequence of client operations starting from the
initial state, the send client, the listener and the config are all present or
all absent, so `isConnected` holds exactly when `connectionInfo` is non-null. -/
theorem client_fields_all_or_none (acts : List ClientAction) :
    ((acts.foldl stepClient initialState).client.isSome
        = (acts.foldl stepClient initialState).listener.isSome) ∧
    ((acts.foldl stepClient initialState).client.isSome
        = (acts.foldl stepClient initialState).config.isSome) ∧
    (isConnected (acts.foldl stepClient initialState) = true
        ↔ connectionInfo (acts.foldl stepClient initialState) ≠ none) := by
  have step : ∀ (s : ClientState) (a : ClientAction),
      (s.client.isSome = s.listener.isSome ∧ s.client.isSome = s.config.isSome) →
      ((stepClient s a).client.isSome = (stepClient s a).listener.isSome ∧
        (stepClient s a).client.isSome = (stepClient s a).config.isSome) := by
    intro s a h
    cases a with
    | connectA ip port lp =>
      simp [stepClient, connect_client, connect_listener, connect_config]
    | disconnectA =>
      simp [stepClient, disconnect_eq]
    | receiveA addr args now =>
      simp only [stepClient]
      unfold receiveMessage
      split <;> simpa using h
    | getValueA all g e idx =>
      simp only [stepClient]
      split
      · split <;> simpa using h
      · exact h
    | setValueA => exact h
  have main : ∀ (acts : List ClientAction) (s : ClientState),
      (s.client.isSome = s.listener.isSome ∧ s.client.isSome = s.config.isSome) →
      ((acts.foldl stepClient s).client.isSome
          = (acts.foldl stepClient s).listener.isSome ∧
        (acts.foldl stepClient s).client.isSome
          = (acts.foldl stepClient s).config.isSome) := by
    intro acts
    induction acts with
    | nil => intro s h; exact h
    | cons a rest ih => intro s h; exact ih _ (step s a h)
  obtain ⟨h1, h2⟩ := main acts initialState (by simp [initialState])
  refine ⟨h1, h2, ?_⟩
  rw [isConnected, connectionInfo, h2, Option.isSome_iff_ne_none]

-- ── Search loop structure lemmas ────────────────────────────────────────────

theorem searchGroupFold_eq (terms : List (List Char))
    (ot : Option OscMessageType) (gn : String) (acc : List SearchResult)
    (eps : List (String × EndpointSpec)) :
    searchGroupFold terms ot gn acc eps =
      acc ++ (eps.filter fun p =>
          !typeFilterSkips ot p.2.type &&
            matchesTerms terms (searchableOf gn p.1 p.2)).map
        fun p => mkSearchResult gn p.1 p.2 := by
  induction eps generalizing acc with
  | nil => simp [searchGroupFold]
  | cons p rest ih =>
    have h1 : searchGroupFold terms ot gn acc (p :: rest) =
        searchGroupFold terms ot gn
          (if typeFilterSkips ot p.2.type then acc
           else if matchesTerms terms (searchableOf gn p.1 p.2) then
             acc ++ [mkSearchResult gn p.1 p.2]
           else acc) rest := rfl
    rw [h1, ih]
    by_cases ht : typeFilterSkips ot p.2.type
    · simp [ht, List.filter_cons]
    · by_cases hm : matchesTerms terms (searchableOf gn p.1 p.2)
      · simp [ht, hm, List.filter_cons, List.append_assoc]
      · simp [ht, hm, List.filter_cons]

theorem searchEndpoints_eq_filter (all : EndpointStore) (q : String)
    (og : Option String) (ot : Option OscMessageType) :
    searchEndpoints all q og ot =
      ((catalogTriples all).filter fun t =>
          !groupFilterSkips og t.1 &&
            (!typeFilterSkips ot t.2.2.type &&
              matchesTerms (termsOf q) (searchableOf t.1 t.2.1 t.2.2))).map
        fun t => mkSearchResult t.1 t.2.1 t.2.2 := by
  suffices h : ∀ (groups : EndpointStore) (acc : List SearchResult),
      groups.foldl
          (fun acc g =>
            if groupFilterSkips og g.1 then acc
            else searchGroupFold (termsOf q) ot g.1 acc g.2) acc =
        acc ++ ((catalogTriples groups).filter fun t =>
            !groupFilterSkips og t.1 &&
              (!typeFilterSkips ot t.2.2.type &&
                matchesTerms (termsOf q) (searchableOf t.1 t.2.1 t.2.2))).map
          fun t => mkSearchResult t.1 t.2.1 t.2.2 by
    simpa [searchEndpoints] using h all []
  intro groups
  induction groups with
  | nil => intro acc; simp [catalogTriples]
  | cons g rest ih =>
    intro acc
    rw [List.foldl_cons]
    have hcat : catalogTriples (g :: rest) =
        (g.2.map fun p => (g.1, p.1, p.2)) ++ catalogTriples rest := by
      simp [catalogTriples]
    by_cases hg : groupFilterSkips og g.1
    · rw [if_pos hg, ih, hcat, List.filter_append]
      have hnil : ((g.2.map fun p => (g.1, p.1, p.2)).filter fun t =>
          !groupFilterSkips og t.1 &&
            (!typeFilterSkips ot t.2.2.type &&
              matchesTerms (termsOf q) (searchableOf t.1 t.2.1 t.2.2))) = [] := by
        rw [List.filter_eq_nil_iff]
        intro t ht
        obtain ⟨p, _, rfl⟩ := List.mem_map.mp ht
        simp [hg]
      rw [hnil, List.nil_append]
    · rw [if_neg hg, searchGroupFold_eq, ih, hcat, List.filter_append,
        List.filter_map, List.map_append, List.map_map]
      have hpred : ∀ p ∈ g.2,
          ((fun t : String × String × EndpointSpec =>
              !groupFilterSkips og t.1 &&
                (!typeFilterSkips ot t.2.2.type &&
                  matchesTerms (termsOf q) (searchableOf t.1 t.2.1 t.2.2))) ∘
            fun p : String × EndpointSpec => (g.1, p.1, p.2)) p =
            (!typeFilterSkips ot p.2.type &&
              matchesTerms (termsOf q) (searchableOf g.1 p.1 p.2)) := by
        intro p _
        simp [Function.comp, hg]
      rw [List.filter_congr hpred]
      simp [Function.comp, List.append_assoc]

-- ── Whitespace and substring lemmas ─────────────────────────────────────────

theorem occursIn_nil_needle (hay : List Char) : occursIn [] hay = true := by
  cases hay <;> simp [occursIn, leadsWith]

theorem toLower_ws {c : Char} (h : c.isWhitespace = true) : c.toLower = c := by
  simp [Char.isWhitespace] at h
  rcases h with ((h | h) | h) | h <;> subst h <;> decide

theorem splitWsAux_all_ws : ∀ (l : List Char) (inWs : Bool) (cur : List Char),
    (∀ c ∈ l, c.isWhitespace = true) →
    ∀ t ∈ splitWsAux inWs cur l, t = cur.reverse ∨ t = [] := by
  intro l
  induction l with
  | nil =>
    intro inWs cur _ t ht
    simp [splitWsAux] at ht
    exact Or.inl ht
  | cons c rest ih =>
    intro inWs cur h t ht
    have hc : c.isWhitespace = true := h c (List.mem_cons_self _ _)
    have hrest : ∀ x ∈ rest, x.isWhitespace = true :=
      fun x hx => h x (List.mem_cons_of_mem _ hx)
    simp only [splitWsAux, if_pos hc] at ht
    cases inWs with
    | true => exact ih true cur hrest t (by simpa using ht)
    | false =>
      rcases List.mem_cons.mp (by simpa using ht) with rfl | ht2
      · exact Or.inl rfl
      · rcases ih true [] hrest t ht2 with h2 | h2
        · exact Or.inr (by simpa using h2)
        · exact Or.inr h2

theorem splitWs_all_ws {l : List Char} (h : ∀ c ∈ l, c.isWhitespace = true) :
    ∀ t ∈ splitWs l, t = [] := by
  intro t ht
  rcases splitWsAux_all_ws l false [] h t ht with h2 | h2
  · simpa using h2
  · exact h2

theorem termsOf_all_nil {q : String} (h : ∀ c ∈ q.data, c.isWhitespace = true) :
    ∀ t ∈ termsOf q, t = [] := by
  apply splitWs_all_ws
  intro c hc
  obtain ⟨c0, hc0, rfl⟩ := List.mem_map.mp hc
  rw [toLower_ws (h c0 hc0)]
  exact h c0 hc0

theorem matchesTerms_all_nil {terms : List (List Char)}
    (h : ∀ t ∈ terms, t = []) (s : List Char) : matchesTerms terms s = true := by
  simp only [matchesTerms, List.all_eq_true]
  intro t ht
  rw [h t ht]
  exact occursIn_nil_needle s

theorem leadsWith_sep : ∀ (term a y : List Char), ' ' ∉ term →
    leadsWith term (a ++ ' ' :: y) = true → leadsWith term a = true := by
  intro term
  induction term with
  | nil => intro a y _ _; rfl
  | cons t ts ih =>
    intro a y hs h
    cases a with
    | nil =>
      simp only [List.nil_append, leadsWith, Bool.and_eq_true, beq_iff_eq] at h
      exact absurd h.1 fun hh => hs (by simp [hh])
    | cons b bs =>
      simp only [List.cons_append, leadsWith, Bool.and_eq_true] at h ⊢
      exact ⟨h.1, ih bs y (fun hm => hs (List.mem_cons_of_mem _ hm)) h.2⟩

theorem occursIn_sep : ∀ (x : List Char) {term y : List Char}, ' ' ∉ term →
    occursIn term (x ++ ' ' :: y) = true →
    occursIn term x = true ∨ occursIn term y = true := by
  intro x
  induction x with
  | nil =>
    intro term y hs h
    simp only [List.nil_append] at h
    have h2 : leadsWith term (' ' :: y) = true ∨ occursIn term y = true := by
      simpa [occursIn, Bool.or_eq_true] using h
    rcases h2 with h2 | h2
    · cases term with
      | nil => exact Or.inl (occursIn_nil_needle [])
      | cons t ts =>
        simp only [leadsWith, Bool.and_eq_true, beq_iff_eq] at h2
        exact absurd h2.1 fun hh => hs (by simp [hh])
    · exact Or.inr h2
  | cons c xs ih =>
    intro term y hs h
    simp only [List.cons_append] at h
    have h2 : leadsWith term (c :: (xs ++ ' ' :: y)) = true ∨
        occursIn term (xs ++ ' ' :: y) = true := by
      simpa [occursIn, Bool.or_eq_true] using h
    rcases h2 with h2 | h2
    · have h3 : leadsWith term (c :: xs) = true :=
        leadsWith_sep term (c :: xs) y hs (by simpa using h2)
      exact Or.inl (by simp [occursIn, h3])
    · rcases ih hs h2 with hx | hy
      · exact Or.inl (by simp [occursIn, hx])
      · exact Or.inr hy

theorem searchableOf_decomp (g e : String) (spec : EndpointSpec) :
    searchableOf g e spec =
      g.data.map Char.toLower ++ ' ' ::
        (e.data.map Char.toLower ++ ' ' ::
          (spec.description.data.map Char.toLower ++ ' ' ::
            spec.type.name.data.map Char.toLower)) := by
  simp [searchableOf, List.map_append, List.map_cons,
    show Char.toLower ' ' = ' ' from by decide]

theorem occursIn_searchable_fields {term : List Char} (hs : ' ' ∉ term)
    {g e : String} {spec : EndpointSpec}
    (h : occursIn term (searchableOf g e spec) = true) :
    occursIn term (g.data.map Char.toLower) = true ∨
    occursIn term (e.data.map Char.toLower) = true ∨
    occursIn term (spec.description.data.map Char.toLower) = true ∨
    occursIn term (spec.type.name.data.map Char.toLower) = true := by
  rw [searchableOf_decomp] at h
  rcases occursIn_sep _ hs h with h1 | h2
  · exact Or.inl h1
  rcases occursIn_sep _ hs h2 with h1 | h3
  · exact Or.inr (Or.inl h1)
  rcases occursIn_sep _ hs h3 with h1 | h4
  · exact Or.inr (Or.inr (Or.inl h1))
  · exact Or.inr (Or.inr (Or.inr h4))

theorem splitWsAux_no_ws : ∀ (l : List Char) (inWs : Bool) (cur : List Char),
    (∀ c ∈ cur, c.isWhitespace = false) →
    ∀ t ∈ splitWsAux inWs cur l, ∀ c ∈ t, c.isWhitespace = false := by
  intro l
  induction l with
  | nil =>
    intro inWs cur hcur t ht c hc
    simp [splitWsAux] at ht
    subst ht
    exact hcur c (by simpa using hc)
  | cons c rest ih =>
    intro inWs cur hcur t ht
    by_cases hw : c.isWhitespace = true
    · simp only [splitWsAux, if_pos hw] at ht
      cases inWs with
      | true => exact ih true cur hcur t (by simpa using ht)
      | false =>
        rcases List.mem_cons.mp (by simpa using ht) with rfl | ht2
        · intro x hx
          exact hcur x (by simpa using hx)
        · exact ih true [] (by intro x hx; simp at hx) t ht2
    · simp only [splitWsAux, if_neg hw] at ht
      refine ih false (c :: cur) ?_ t ht
      intro x hx
      rcases List.mem_cons.mp hx with rfl | hx2
      · cases hb : x.isWhitespace
        · rfl
        · exact absurd hb hw
      · exact hcur x hx2

theorem termsOf_no_space (q : String) : ∀ t ∈ termsOf q, ' ' ∉ t := by
  intro t ht hmem
  have h := splitWsAux_no_ws (q.data.map Char.toLower) false [] (by simp)
    t ht ' ' hmem
  exact absurd h (by decide)

/-- Counterexample to claim C1 as stated: the claim asks for substring
matching against the plain concatenation of the four fields, but the code
joins the fields with spaces. On the store with group `foo` and endpoint
`bar`, the query `ob` matches the concatenation `foobar...` across the field
boundary, yet the code (matching against `foo bar ...`) returns nothing. -/
theorem searchEndpoints_concat_counterexample :
    searchEndpoints exStore "ob" none none ≠
      searchSpecClaimed exStore "ob" none none := by
  decide

/-- Claim C1 (amended): with any supplied group filter non-empty,
`searchEndpoints` returns exactly the catalog triples — in catalog iteration
order — that pass the exact-match group and type filters and for which every
whitespace-separated lowercased query term is a substring of the lowercased
space-joined concatenation of group name, endpoint name, description, and
message type. -/
theorem searchEndpoints_spec_joined (all : EndpointStore) (q : String)
    (og : Option String) (ot : Option OscMessageType) (hog : og ≠ some "") :
    searchEndpoints all q og ot = searchSpecJoined all q og ot := by
  rw [searchEndpoints_eq_filter, searchSpecJoined]
  congr 1
  apply List.filter_congr
  intro t _
  have hgrp : (!groupFilterSkips og t.1) = groupPasses og t.1 := by
    cases og with
    | none => rfl
    | some gg =>
      have hne : gg ≠ "" := fun hh => hog (by rw [hh])
      have h1 : (gg != "") = true := bne_iff_ne.mpr hne
      show (!(gg != "" && t.1 != gg)) = (t.1 == gg)
      rw [h1, Bool.true_and, bne, Bool.not_not]
  have htyp : (!typeFilterSkips ot t.2.2.type) = typePasses ot t.2.2.type := by
    cases ot with
    | none => rfl
    | some ty =>
      show (!(t.2.2.type != ty)) = (t.2.2.type == ty)
      rw [bne, Bool.not_not]
  rw [hgrp, htyp]

/-- Witness for the amended C1 on the sample store. -/
theorem searchEndpoints_spec_joined_witness :
    searchEndpoints wStore "fader" none none =
      searchSpecJoined wStore "fader" none none :=
  searchEndpoints_spec_joined wStore "fader" none none (by decide)

/-- Claim C8: an all-whitespace (or empty) query with no filters matches every
endpoint of the catalog, and a query containing a term that occurs in no
endpoint's lowercased group name, endpoint name, description, or message type
returns the empty list. -/
theorem searchEndpoints_vacuous_and_unmatched (all : EndpointStore)
    (q : String) :
    ((∀ c ∈ q.data, c.isWhitespace = true) →
      searchEndpoints all q none none =
        (catalogTriples all).map fun t => mkSearchResult t.1 t.2.1 t.2.2) ∧
    (∀ term ∈ termsOf q,
      (∀ t ∈ catalogTriples all,
          occursIn term (t.1.data.map Char.toLower) = false ∧
          occursIn term (t.2.1.data.map Char.toLower) = false ∧
          occursIn term (t.2.2.description.data.map Char.toLower) = false ∧
          occursIn term (t.2.2.type.name.data.map Char.toLower) = false) →
      searchEndpoints all q none none = []) := by
  constructor
  · intro hws
    rw [searchEndpoints_eq_filter, List.filter_eq_self.mpr]
    intro t _
    simp [groupFilterSkips, typeFilterSkips,
      matchesTerms_all_nil (termsOf_all_nil hws)]
  · intro term hterm hfields
    rw [searchEndpoints_eq_filter]
    have hnil : ((catalogTriples all).filter fun t =>
        !groupFilterSkips none t.1 &&
          (!typeFilterSkips none t.2.2.type &&
            matchesTerms (termsOf q) (searchableOf t.1 t.2.1 t.2.2))) = [] := by
      rw [List.filter_eq_nil_iff]
      intro t ht hp
      have hmt : matchesTerms (termsOf q) (searchableOf t.1 t.2.1 t.2.2)
          = true := by
        simpa [groupFilterSkips, typeFilterSkips] using hp
      have hocc : occursIn term (searchableOf t.1 t.2.1 t.2.2) = true :=
        (List.all_eq_true.mp hmt) term hterm
      have h4 := occursIn_searchable_fields (termsOf_no_space q term hterm) hocc
      obtain ⟨f1, f2, f3, f4⟩ := hfields t ht
      rcases h4 with h | h | h | h <;> simp_all
    rw [hnil]
    rfl

/-- Witness for C8: the empty query and a whitespace-only query each return
the whole sample catalog, and the query `zzz` (occurring in no field) returns
nothing. -/
theorem searchEndpoints_vacuous_witness :
    searchEndpoints wStore "" none none =
      ((catalogTriples wStore).map fun t => mkSearchResult t.1 t.2.1 t.2.2) ∧
    searchEndpoints wStore " " none none =
      ((catalogTriples wStore).map fun t => mkSearchResult t.1 t.2.1 t.2.2) ∧
    searchEndpoints wStore "zzz" none none = [] :=
  ⟨(searchEndpoints_vacuous_and_unmatched wStore "").1 (by decide),
   (searchEndpoints_vacuous_and_unmatched wStore " ").1 (by decide),
   (searchEndpoints_vacuous_and_unmatched wStore "zzz").2 ['z', 'z', 'z']
     (by decide) (by decide)⟩

-- ── Buffer and polling lemmas ───────────────────────────────────────────────

theorem bufferSet_lookup (buf : ResponseBuffer) (k : String) (r : OscResponse)
    (key : String) :
    (bufferSet buf k r).lookup key =
      if key = k then some r else buf.lookup key := by
  induction buf with
  | nil =>
    by_cases h : key = k
    · subst h
      simp [bufferSet, List.lookup]
    · have hb : (key == k) = false := beq_eq_false_iff_ne.mpr h
      simp [bufferSet, List.lookup, hb, h]
  | cons p rest ih =>
    obtain ⟨pk, pv⟩ := p
    by_cases h1 : pk = k
    · subst h1
      by_cases h2 : key = pk
      · subst h2
        simp [bufferSet, List.lookup]
      · have hb : (key == pk) = false := beq_eq_false_iff_ne.mpr h2
        simp [bufferSet, List.lookup, hb, h2]
    · have hb1 : (pk == k) = false := beq_eq_false_iff_ne.mpr h1
      by_cases h2 : key = pk
      · subst h2
        simp [bufferSet, List.lookup, hb1, h1]
      · have hb2 : (key == pk) = false := beq_eq_false_iff_ne.mpr h2
        simp [bufferSet, List.lookup, hb1, hb2, h2, ih]

theorem bufferDelete_lookup_self (buf : ResponseBuffer) (key : String) :
    (bufferDelete buf key).lookup key = none := by
  induction buf with
  | nil => rfl
  | cons p rest ih =>
    obtain ⟨pk, pv⟩ := p
    by_cases h : pk = key
    · simpa [bufferDelete, List.filter_cons, h] using ih
    · have hx : (pk != key) = true := bne_iff_ne.mpr h
      simp only [bufferDelete, List.filter_cons, hx, if_true]
      simp only [List.lookup, show (key == pk) = false from
        beq_eq_false_iff_ne.mpr fun hh => h hh.symm]
      simpa [bufferDelete] using ih

theorem applyArrivals_lookup : ∀ (rs : List OscResponse)
    (buf : ResponseBuffer) (path : String) (r : OscResponse),
    (applyArrivals buf rs).lookup path = some r →
    (r ∈ rs ∧ r.address = path) ∨ buf.lookup path = some r := by
  intro rs
  induction rs with
  | nil => intro buf path r h; exact Or.inr h
  | cons a rest ih =>
    intro buf path r h
    rcases ih (bufferSet buf a.address a) path r h with ⟨hm, ha⟩ | hl
    · exact Or.inl ⟨List.mem_cons_of_mem _ hm, ha⟩
    · rw [bufferSet_lookup] at hl
      by_cases hp : path = a.address
      · rw [if_pos hp] at hl
        injection hl with hl
        subst hl
        exact Or.inl ⟨List.mem_cons_self _ _, hp.symm⟩
      · rw [if_neg hp] at hl
        exact Or.inr hl

theorem pollLoop_some (path : String) (timeoutMs deadline : Int) :
    ∀ (ticks : List PollTick) (buf : ResponseBuffer) (r : OscResponse),
    pollLoop path timeoutMs deadline buf ticks = some r →
    (buf.lookup path = some r ∨
      ∃ tick ∈ ticks, r ∈ tick.arrivals ∧ r.address = path) ∧
    (∃ tick ∈ ticks, tick.now < deadline ∧ r.timestamp > tick.now - timeoutMs) := by
  intro ticks
  induction ticks with
  | nil =>
    intro buf r h
    simp [pollLoop] at h
  | cons tick rest ih =>
    intro buf r h
    by_cases hd : tick.now < deadline
    · simp only [pollLoop] at h
      rw [if_pos hd] at h
      split at h
      next r2 hl =>
        split at h
        next hf =>
          injection h with h
          subst h
          constructor
          · rcases applyArrivals_lookup tick.arrivals buf path r2 hl with
              ⟨hm, ha⟩ | hb
            · exact Or.inr ⟨tick, List.mem_cons_self _ _, hm, ha⟩
            · exact Or.inl hb
          · exact ⟨tick, List.mem_cons_self _ _, hd, hf⟩
        next hf =>
          obtain ⟨h1, h2⟩ := ih _ r h
          constructor
          · rcases h1 with hb | ⟨t2, ht2, hm, ha⟩
            · rcases applyArrivals_lookup tick.arrivals buf path r hb with
                ⟨hm, ha⟩ | hb2
              · exact Or.inr ⟨tick, List.mem_cons_self _ _, hm, ha⟩
              · exact Or.inl hb2
            · exact Or.inr ⟨t2, List.mem_cons_of_mem _ ht2, hm, ha⟩
          · obtain ⟨t2, ht2, hlt, hts⟩ := h2
            exact ⟨t2, List.mem_cons_of_mem _ ht2, hlt, hts⟩
      next hl =>
        obtain ⟨h1, h2⟩ := ih _ r h
        constructor
        · rcases h1 with hb | ⟨t2, ht2, hm, ha⟩
          · rcases applyArrivals_lookup tick.arrivals buf path r hb with
              ⟨hm, ha⟩ | hb2
            · exact Or.inr ⟨tick, List.mem_cons_self _ _, hm, ha⟩
            · exact Or.inl hb2
          · exact Or.inr ⟨t2, List.mem_cons_of_mem _ ht2, hm, ha⟩
        · obtain ⟨t2, ht2, hlt, hts⟩ := h2
          exact ⟨t2, List.mem_cons_of_mem _ ht2, hlt, hts⟩
    · simp only [pollLoop] at h
      rw [if_neg hd] at h
      exact absurd h (by simp)

theorem isNone_false_of_connected {st : ClientState}
    (hconn : isConnected st = true) : st.client.isNone = false := by
  cases hc : st.client with
  | none => simp [isConnected, hc] at hconn
  | some c => rfl

theorem buildOscPath_some (all : EndpointStore) (g e : String)
    (idx : Option Int) (spec : EndpointSpec)
    (h : getEndpointInfo all g e = some spec) :
    ∃ p, buildOscPath all g e idx = some p := by
  cases idx with
  | none =>
    cases hm : spec.multiPath <;>
      exact ⟨"/" ++ spec.type.name ++ "/" ++ g ++ "/" ++ e,
        by simp [buildOscPath, h, hm]⟩
  | some i =>
    cases hm : spec.multiPath
    · exact ⟨"/" ++ spec.type.name ++ "/" ++ g ++ "/" ++ e,
        by simp [buildOscPath, h, hm]⟩
    · exact ⟨"/" ++ spec.type.name ++ "/" ++ g ++ "/" ++ e ++ "/" ++ toString i,
        by simp [buildOscPath, h, hm]⟩

/-- Claim C4: for a connected client and a valid address, `getValue` sends the
zero-argument query for the exact built path and returns an `ok` outcome (not
an error). Any returned response has that address, is one of the messages that
arrived through the listener after the pre-call buffer entry for the path was
discarded, and was observed at a poll instant before the deadline with a
timestamp newer than that instant minus `timeoutMs`; if no arriving message
carries the address, the outcome is `none` (timeout), still not an error. -/
theorem getValue_query_and_freshness (all : EndpointStore) (st : ClientState)
    (g e : String) (idx : Option Int) (timeoutMs now0 : Int)
    (ticks : List PollTick) (path : String)
    (hconn : isConnected st = true)
    (hpath : buildOscPath all g e idx = some path) :
    getValue all st g e idx timeoutMs now0 ticks =
      .ok ⟨⟨path, []⟩,
        pollLoop path timeoutMs (now0 + timeoutMs)
          (bufferDelete st.responseBuffer path) ticks⟩ ∧
    (∀ r, pollLoop path timeoutMs (now0 + timeoutMs)
          (bufferDelete st.responseBuffer path) ticks = some r →
        r.address = path ∧ (∃ tick ∈ ticks, r ∈ tick.arrivals) ∧
        ∃ tick ∈ ticks, tick.now < now0 + timeoutMs ∧
          r.timestamp > tick.now - timeoutMs) ∧
    ((∀ tick ∈ ticks, ∀ r ∈ tick.arrivals, r.address ≠ path) →
      getValue all st g e idx timeoutMs now0 ticks = .ok ⟨⟨path, []⟩, none⟩) := by
  have hn : st.client.isNone = false := isNone_false_of_connected hconn
  have hmain : getValue all st g e idx timeoutMs now0 ticks =
      .ok ⟨⟨path, []⟩,
        pollLoop path timeoutMs (now0 + timeoutMs)
          (bufferDelete st.responseBuffer path) ticks⟩ := by
    simp [getValue, hn, hpath]
  have hsome : ∀ r, pollLoop path timeoutMs (now0 + timeoutMs)
      (bufferDelete st.responseBuffer path) ticks = some r →
      r.address = path ∧ (∃ tick ∈ ticks, r ∈ tick.arrivals) ∧
      ∃ tick ∈ ticks, tick.now < now0 + timeoutMs ∧
        r.timestamp > tick.now - timeoutMs := by
    intro r h
    obtain ⟨h1, h2⟩ := pollLoop_some path timeoutMs (now0 + timeoutMs) ticks
      (bufferDelete st.responseBuffer path) r h
    rcases h1 with hb | ⟨tick, ht, hm, ha⟩
    · rw [bufferDelete_lookup_self] at hb
      exact absurd hb (by simp)
    · exact ⟨ha, ⟨tick, ht, hm⟩, h2⟩
  refine ⟨hmain, hsome, ?_⟩
  intro hnone
  cases hres : pollLoop path timeoutMs (now0 + timeoutMs)
      (bufferDelete st.responseBuffer path) ticks with
  | none => rw [hmain, hres]
  | some r =>
    obtain ⟨ha, ⟨tick, ht, hm⟩, _⟩ := hsome r hres
    exact absurd ha (hnone tick ht r hm)

/-- Witness for C4: on the sample store and connected client (whose buffer
holds a stale entry for the queried path), a response arriving 10 time units
after the query is returned unchanged. -/
theorem getValue_query_and_freshness_witness :
    getValue wStore connSt "grp" "fd" none 2000 1000 [⟨1010, [wResp]⟩] =
      .ok ⟨⟨"/enPPCFaderMessage/grp/fd", []⟩, some wResp⟩ := by
  have h := (getValue_query_and_freshness wStore connSt "grp" "fd" none 2000
    1000 [⟨1010, [wResp]⟩] "/enPPCFaderMessage/grp/fd"
    (by decide) (by decide)).1
  rw [h]
  have hp : pollLoop "/enPPCFaderMessage/grp/fd" 2000 (1000 + 2000)
      (bufferDelete connSt.responseBuffer "/enPPCFaderMessage/grp/fd")
      [⟨1010, [wResp]⟩] = some wResp := by decide
  rw [hp]

/-- Claim C3: for a connected client and a known endpoint, `setValue` with a
numeric value encodes a fader-typed float clamped to
`[0.0000001, 0.9999999] = [1e-7, 1-1e-7]` (so the sent value is never 0 or 1),
any other float clamped to `[0, 1]`, and an integer rounded to a nearest
integer (`Math.round`, within 1/2 of the input). -/
theorem setValue_numeric_encoding (all : EndpointStore) (st : ClientState)
    (g e : String) (q : ℚ) (idx : Option Int) (spec : EndpointSpec)
    (path : String)
    (hconn : isConnected st = true)
    (hspec : getEndpointInfo all g e = some spec)
    (hpath : buildOscPath all g e idx = some path) :
    (spec.argumentType = some .float → spec.type = .enPPCFaderMessage →
      setValue all st g e (.num q) idx
          = .ok ⟨path, [.f (max 0.0000001 (min 0.9999999 q))]⟩ ∧
        (0.0000001 : ℚ) ≤ max 0.0000001 (min 0.9999999 q) ∧
        max (0.0000001 : ℚ) (min 0.9999999 q) ≤ 1 - 0.0000001) ∧
    (spec.argumentType = some .float → spec.type ≠ .enPPCFaderMessage →
      setValue all st g e (.num q) idx
          = .ok ⟨path, [.f (max 0 (min 1 q))]⟩ ∧
        (0 : ℚ) ≤ max 0 (min 1 q) ∧ max (0 : ℚ) (min 1 q) ≤ 1) ∧
    (spec.argumentType = some .integer →
      setValue all st g e (.num q) idx = .ok ⟨path, [.i (jsRound q)]⟩ ∧
        |(jsRound q : ℚ) - q| ≤ 1 / 2) := by
  have hn : st.client.isNone = false := isNone_false_of_connected hconn
  refine ⟨?_, ?_, ?_⟩
  · intro hat hty
    refine ⟨by simp [setValue, hn, hspec, hat, hpath, hty], le_max_left _ _, ?_⟩
    rw [max_le_iff]
    constructor
    · norm_num
    · calc min (0.9999999 : ℚ) q ≤ 0.9999999 := min_le_left _ _
        _ ≤ 1 - 0.0000001 := by norm_num
  · intro hat hty
    have hb : (spec.type == OscMessageType.enPPCFaderMessage) = false :=
      beq_eq_false_iff_ne.mpr hty
    refine ⟨by simp [setValue, hn, hspec, hat, hpath, hb], le_max_left _ _, ?_⟩
    rw [max_le_iff]
    constructor
    · norm_num
    · exact min_le_left _ _
  · intro hat
    refine ⟨by simp [setValue, hn, hspec, hat, hpath], ?_⟩
    have h1 : (↑(jsRound q) : ℚ) ≤ q + 1 / 2 := Int.floor_le _
    have h2 : q + 1 / 2 - 1 < (↑(jsRound q) : ℚ) := Int.sub_one_lt_floor _
    rw [abs_le]
    constructor <;> linarith

/-- Witness for C3: on the sample fader, input 1 is sent clamped strictly
below 1, and on the sample switch, input 37/10 is sent as the rounded
integer. -/
theorem setValue_numeric_encoding_witness :
    (setValue wStore connSt "grp" "fd" (.num 1) none
        = .ok ⟨"/enPPCFaderMessage/grp/fd",
            [.f (max 0.0000001 (min 0.9999999 1))]⟩ ∧
      (0.0000001 : ℚ) ≤ max 0.0000001 (min 0.9999999 1) ∧
      max (0.0000001 : ℚ) (min 0.9999999 1) ≤ 1 - 0.0000001) ∧
    (setValue wStore connSt "grp" "sw" (.num (37 / 10)) none
        = .ok ⟨"/enPPCSwitchMessage/grp/sw", [.i (jsRound (37 / 10))]⟩ ∧
      |(jsRound (37 / 10) : ℚ) - 37 / 10| ≤ 1 / 2) :=
  ⟨(setValue_numeric_encoding wStore connSt "grp" "fd" 1 none exFaderSpec
      "/enPPCFaderMessage/grp/fd" (by decide) (by decide) (by decide)).1
      (by decide) (by decide),
   (setValue_numeric_encoding wStore connSt "grp" "sw" (37 / 10) none
      exSwitchSpec "/enPPCSwitchMessage/grp/sw"
      (by decide) (by decide) (by decide)).2.2 (by decide)⟩

/-- Claim C5: `setValue` fails exactly on: disconnected client (not-connected
error), unknown endpoint (invalid-endpoint error), a null `argumentType`
(read-only error), or a non-numeric value for a float or integer endpoint
(type-mismatch error); a string endpoint accepts any value (coerced), the
internal path-build failure can never fire, and none of the failure conditions
involves `isDangerous`. -/
theorem setValue_failure_conditions (all : EndpointStore) (st : ClientState)
    (g e : String) (v : JsValue) (idx : Option Int) :
    (isConnected st = false →
      setValue all st g e v idx = .error .notConnected) ∧
    (isConnected st = true → getEndpointInfo all g e = none →
      setValue all st g e v idx = .error .invalidEndpoint) ∧
    (isConnected st = true → ∀ spec, getEndpointInfo all g e = some spec →
      spec.argumentType = none →
      setValue all st g e v idx = .error .readOnly) ∧
    (isConnected st = true → ∀ spec, getEndpointInfo all g e = some spec →
      (spec.argumentType = some .float ∨ spec.argumentType = some .integer) →
      ∀ s, v = .str s → setValue all st g e v idx = .error .typeMismatch) ∧
    (isConnected st = true → ∀ spec, getEndpointInfo all g e = some spec →
      ∀ p, buildOscPath all g e idx = some p →
      spec.argumentType = some .string →
      setValue all st g e v idx = .ok ⟨p, [.s (jsString v)]⟩) ∧
    (isConnected st = true → ∀ spec, getEndpointInfo all g e = some spec →
      ∀ aty, spec.argumentType = some aty →
      ((∃ q, v = .num q) ∨ aty = .string) →
      ∃ m, setValue all st g e v idx = .ok m) ∧
    setValue all st g e v idx ≠ .error .pathFailure := by
  refine ⟨?_, ?_, ?_, ?_, ?_, ?_, ?_⟩
  · intro hdis
    have hn : st.client.isNone = true := by
      cases hc : st.client with
      | none => rfl
      | some c => simp [isConnected, hc] at hdis
    simp [setValue, hn]
  · intro hconn hinfo
    have hn := isNone_false_of_connected hconn
    simp [setValue, hn, hinfo]
  · intro hconn spec hinfo hat
    have hn := isNone_false_of_connected hconn
    simp [setValue, hn, hinfo, hat]
  · intro hconn spec hinfo hat s hv
    have hn := isNone_false_of_connected hconn
    obtain ⟨p, hp⟩ := buildOscPath_some all g e idx spec hinfo
    subst hv
    rcases hat with hat | hat <;> simp [setValue, hn, hinfo, hat, hp]
  · intro hconn spec hinfo p hp hat
    have hn := isNone_false_of_connected hconn
    simp [setValue, hn, hinfo, hat, hp]
  · intro hconn spec hinfo aty hat hok
    have hn := isNone_false_of_connected hconn
    obtain ⟨p, hp⟩ := buildOscPath_some all g e idx spec hinfo
    rcases hok with ⟨q, rfl⟩ | rfl
    · cases aty with
      | float =>
        by_cases hf : spec.type = .enPPCFaderMessage
        · exact ⟨⟨p, [.f (max 0.0000001 (min 0.9999999 q))]⟩,
            by simp [setValue, hn, hinfo, hat, hp, hf]⟩
        · have hb : (spec.type == OscMessageType.enPPCFaderMessage) = false :=
            beq_eq_false_iff_ne.mpr hf
          exact ⟨⟨p, [.f (max 0 (min 1 q))]⟩,
            by simp [setValue, hn, hinfo, hat, hp, hb]⟩
      | integer =>
        exact ⟨⟨p, [.i (jsRound q)]⟩, by simp [setValue, hn, hinfo, hat, hp]⟩
      | string =>
        exact ⟨⟨p, [.s (jsString (.num q))]⟩,
          by simp [setValue, hn, hinfo, hat, hp]⟩
    · exact ⟨⟨p, [.s (jsString v)]⟩, by simp [setValue, hn, hinfo, hat, hp]⟩
  · intro hcontra
    by_cases hc : st.client.isNone = true
    · simp [setValue, hc] at hcontra
    · have hn : st.client.isNone = false := by
        cases hb : st.client.isNone
        · rfl
        · exact absurd hb hc
      cases hinfo : getEndpointInfo all g e with
      | none => simp [setValue, hn, hinfo] at hcontra
      | some spec =>
        cases hat : spec.argumentType with
        | none => simp [setValue, hn, hinfo, hat] at hcontra
        | some aty =>
          obtain ⟨p, hp⟩ := buildOscPath_some all g e idx spec hinfo
          cases aty <;> cases v <;>
            simp [setValue, hn, hinfo, hat, hp] at hcontra

/-- Witness for C5: each failure mode, the string coercion, and a successful
write to a dangerous endpoint on the sample store. -/
theorem setValue_failure_conditions_witness :
    setValue wStore initialState "grp" "fd" (.num 1) none
        = .error .notConnected ∧
    setValue wStore connSt "grp" "nope" (.num 1) none
        = .error .invalidEndpoint ∧
    setValue wStore connSt "grp" "mtr" (.num 1) none = .error .readOnly ∧
    setValue wStore connSt "grp" "fd" (.str "hi") none
        = .error .typeMismatch ∧
    setValue wStore connSt "grp" "lbl" (.num 5) none
        = .ok ⟨"/enPPCStringMessage/grp/lbl", [.s (jsString (.num 5))]⟩ ∧
    ∃ m, setValue wStore connSt "grp" "enRebootConsole" (.num 1) none
        = .ok m :=
  ⟨(setValue_failure_conditions wStore initialState "grp" "fd" (.num 1)
      none).1 (by decide),
   (setValue_failure_conditions wStore connSt "grp" "nope" (.num 1)
      none).2.1 (by decide) (by decide),
   (setValue_failure_conditions wStore connSt "grp" "mtr" (.num 1)
      none).2.2.1 (by decide) exMeterSpec (by decide) (by decide),
   (setValue_failure_conditions wStore connSt "grp" "fd" (.str "hi")
      none).2.2.2.1 (by decide) exFaderSpec (by decide) (Or.inl (by decide))
      "hi" rfl,
   (setValue_failure_conditions wStore connSt "grp" "lbl" (.num 5)
      none).2.2.2.2.1 (by decide) exStringSpec (by decide)
      "/enPPCStringMessage/grp/lbl" (by decide) (by decide),
   (setValue_failure_conditions wStore connSt "grp" "enRebootConsole"
      (.num 1) none).2.2.2.2.2.1 (by decide) exSwitchSpec (by decide)
      .integer (by decide) (Or.inl ⟨1, rfl⟩)⟩

end Midas
